import Mathlib

/-!
Formal model of the translation orchestration core of the llm-translate
repository: the segmenter, the resilient retry executor, the strong-mode
validation loop, the proxy bypass matcher and the heuristic validator.

Go strings are modelled as lists of characters (`Str`); `len` on a Go
string is byte length, which coincides with `List.length` on the
single-byte (ASCII) texts all theorems below use.  Go errors are
modelled by their message strings, since the code classifies errors by
substring inspection of the message only.
-/

set_option maxRecDepth 4096

/-- Go strings, modelled as lists of characters. -/
abbrev Str := List Char

/-- Whitespace test used by `strings.TrimSpace` and `strings.Fields`
(`unicode.IsSpace`), restricted to the ASCII whitespace characters. -/
def isSpace (c : Char) : Bool :=
  c == ' ' || c == '\t' || c == '\n' || c == '\x0b' || c == '\x0c' || c == '\r'

/-- Models `strings.ToLower` (ASCII range). -/
def toLower (s : Str) : Str := s.map Char.toLower

/-- Models `strings.TrimSpace`: drop leading and trailing whitespace. -/
def trimSpace (s : Str) : Str :=
  ((s.dropWhile isSpace).reverse.dropWhile isSpace).reverse

/-- Accumulator loop for `fields`; `current` holds the pending word reversed. -/
def fieldsAux (current : Str) : Str → List Str
  | [] => if current = [] then [] else [current.reverse]
  | c :: rest =>
    if isSpace c then
      if current = [] then fieldsAux [] rest
      else current.reverse :: fieldsAux [] rest
    else fieldsAux (c :: current) rest

/-- Models `strings.Fields`: split around runs of whitespace, dropping empties. -/
def fields (s : Str) : List Str := fieldsAux [] s

/-- Models `strings.Contains(s, sub)`: true when `sub` occurs in `s`. -/
def containsSubstr : Str → Str → Bool
  | [], sub => sub.isPrefixOf ([] : Str)
  | c :: rest, sub => sub.isPrefixOf (c :: rest) || containsSubstr rest sub

/-- The occurrence of `sub` as a contiguous substring of `s`, as a proposition. -/
def SubstringOf (sub s : Str) : Prop := ∃ pre post, s = pre ++ sub ++ post

/-- Models `strings.ReplaceAll(s, old, new)` for a one-character `old`:
every occurrence of the character is replaced, left to right. -/
def replaceAllChar : Str → Char → Str → Str
  | [], _, _ => []
  | c :: rest, old, new =>
    (if c = old then new else [c]) ++ replaceAllChar rest old new

/-- Models `strings.ReplaceAll(s, old, new)` for a nonempty string `old`:
non-overlapping occurrences are replaced left to right.  (For `old = ""`
Go inserts `new` between characters; that case is never exercised by the
configurations modelled here, whose allowed terms are nonempty words.) -/
def replaceAllSub (old new : Str) : Str → Str
  | [] => []
  | c :: rest =>
    if h : old ≠ [] ∧ old.isPrefixOf (c :: rest) then
      new ++ replaceAllSub old new ((c :: rest).drop old.length)
    else
      c :: replaceAllSub old new rest
termination_by s => s.length
decreasing_by
  · simp only [List.length_drop, List.length_cons]
    cases old with
    | nil => exact absurd rfl h.1
    | cons o os => simp only [List.length_cons]; omega
  · simp

/-- Collapse a space directly following a space (helper for the `\s+`
regular expression used by the validator cleaning step). -/
def squeeze : Str → Str
  | [] => []
  | [c] => [c]
  | c1 :: c2 :: rest =>
    if c1 = ' ' ∧ c2 = ' ' then squeeze (c2 :: rest)
    else c1 :: squeeze (c2 :: rest)

/-- Models `regexp.MustCompile("\s+").ReplaceAllString(s, " ")`: every
maximal run of whitespace becomes one space.  Each whitespace character
is first mapped to a plain space, then adjacent spaces are merged. -/
def collapseWhitespace (s : Str) : Str :=
  squeeze (s.map (fun c => if isSpace c then ' ' else c))

/-- Models `strings.Join(elems, sep)`. -/
def joinSep (sep : Str) : List Str → Str
  | [] => []
  | [x] => x
  | x :: y :: rest => x ++ sep ++ joinSep sep (y :: rest)

/-- Accumulator loop for `splitBlank`; `acc` holds the pending piece reversed. -/
def splitBlankAux : Str → Str → List Str
  | acc, '\n' :: '\n' :: rest => acc.reverse :: splitBlankAux [] rest
  | acc, c :: rest => splitBlankAux (c :: acc) rest
  | acc, [] => [acc.reverse]

/-- Models `strings.Split(text, "\n\n")`: split around each non-overlapping
occurrence of a blank line, leftmost first. -/
def splitBlank (s : Str) : List Str := splitBlankAux [] s

/-! ## Proxy bypass matching (internal/proxy/proxy.go) -/

/-- Models `matchPattern` from internal/proxy/proxy.go: the pattern is
rewritten (`.` to `\.`, then `*` to `.*`) and the rewritten text is
matched literally as a prefix or suffix of `text`. -/
def matchPattern (text pattern : Str) : Bool :=
  let pattern2 := replaceAllChar pattern '.' ['\\', '.']
  let pattern3 := replaceAllChar pattern2 '*' ['.', '*']
  pattern3.isPrefixOf text || pattern3.isSuffixOf text

/-- One iteration of the loop in `shouldBypassProxy`: the decision a single
bypass pattern contributes for a (already lowercased) host.  An empty
pattern is skipped (`continue`); the exact-match branch of the source
re-checks the same string equality for IP literals, which is subsumed by
the plain equality here. -/
def patternBypasses (host pattern0 : Str) : Bool :=
  let pattern := toLower (trimSpace pattern0)
  if pattern = [] then false
  else if pattern = ['*'] then true
  else
    (if (['*', '.'] : Str).isPrefixOf pattern then (pattern.drop 2).isSuffixOf host
     else false)
    ||
    (if pattern.contains '*' then matchPattern host pattern
     else decide (host = pattern))

/-- Models `shouldBypassProxy` from internal/proxy/proxy.go: lowercase the
host and return true as soon as some pattern in the list matches. -/
def shouldBypassProxy (host : Str) (noProxyList : List Str) : Bool :=
  if noProxyList.length = 0 then false
  else
    let host2 := toLower host
    noProxyList.any (patternBypasses host2)

/-- The per-pattern bypass rule exactly as claim C3 words it: a pattern
containing `*` other than the two special forms bypasses hosts that start
or end with the literal pattern text. -/
def claimBypassPattern (host pattern0 : Str) : Bool :=
  let p := toLower pattern0
  if p = ['*'] then true
  else if (['*', '.'] : Str).isPrefixOf p then (p.drop 2).isSuffixOf host
  else if p.contains '*' then p.isPrefixOf host || p.isSuffixOf host
  else decide (host = p)

/-- The whole-list bypass decision as claim C3 words it. -/
def claimBypass (host : Str) (list : List Str) : Bool :=
  list.any (claimBypassPattern (toLower host))

/-- The per-pattern bypass rule of the amended claim: patterns are trimmed
and lowercased, empty patterns are skipped, `*` bypasses everything,
`*.suffix` bypasses hosts ending in the suffix, any other pattern
containing `*` is first rewritten (`.` to `\.`, `*` to `.*`) and bypasses
hosts that start or end with that rewritten literal text, and any other
pattern bypasses exactly the host equal to it. -/
def specBypassPattern (host pattern0 : Str) : Bool :=
  let p := toLower (trimSpace pattern0)
  if p = [] then false
  else if p = ['*'] then true
  else if (['*', '.'] : Str).isPrefixOf p ∧ (p.drop 2).isSuffixOf host then true
  else if p.contains '*' then
    let q := replaceAllChar (replaceAllChar p '.' ['\\', '.']) '*' ['.', '*']
    q.isPrefixOf host || q.isSuffixOf host
  else decide (host = p)

/-- The whole-list bypass decision of the amended claim. -/
def specBypass (host : Str) (list : List Str) : Bool :=
  list.any (specBypassPattern (toLower host))

/-! ## Heuristic validator (internal/validator/validator.go) -/

namespace Validator

/-- The strong-validation configuration consumed by the validator
(config.StrongValidation).  The `AllowedPatterns` field of the source is
a list of regular expressions applied through the Go regexp engine; the
configurations modelled here carry no such patterns, for which the
pattern-cleaning loop of `cleanTextForValidation` is a no-op, so the
field is omitted.  `MaxRetries` is read only by the CLI, not by the
validator itself. -/
structure StrongValidation where
  enabled : Bool
  maxRetries : Nat
  allowedTerms : List Str
deriving DecidableEq

/-- Models `cleanTextForValidation`: remove the allowed patterns (none in
the modelled configurations) and allowed terms, then collapse whitespace
runs to single spaces and trim. -/
def cleanTextForValidation (cfg : StrongValidation) (text : Str) : Str :=
  let afterTerms := cfg.allowedTerms.foldl (fun r term => replaceAllSub term [' '] r) text
  trimSpace (collapseWhitespace afterTerms)

/-- The common-word list of `containsEnglishText`, in source order.  The
entry `I` is kept uppercase as in the source (where it can never match
the lowercased text, a quirk preserved here). -/
def commonWords : List Str :=
  ["the", "be", "to", "of", "and", "a", "in", "that", "have", "I",
   "it", "for", "not", "on", "with", "he", "as", "you", "do", "at",
   "this", "but", "his", "by", "from", "they", "we", "say", "her", "she",
   "or", "an", "will", "my", "one", "all", "would", "there", "their",
   "what", "so", "up", "out", "if", "about", "who", "get", "which", "go"
  ].map String.toList

/-- The loop of `containsEnglishText`: count common words occurring
space-delimited in the lowercased text; return true as soon as the count
exceeds 3. -/
def containsEnglishTextLoop (textLower : Str) : List Str → Nat → Bool
  | [], _ => false
  | w :: ws, count =>
    let count2 :=
      if containsSubstr textLower (' ' :: (w ++ [' ']))
         || (w ++ [' ']).isPrefixOf textLower
         || (' ' :: w).isSuffixOf textLower
      then count + 1 else count
    if count2 > 3 then true else containsEnglishTextLoop textLower ws count2

/-- Models `containsEnglishText`. -/
def containsEnglishText (text : Str) : Bool :=
  containsEnglishTextLoop (toLower text) commonWords 0

/-- The word map of `isEnglishWord`, as a membership list (map iteration
order is irrelevant for a lookup). -/
def englishWords : List Str :=
  ["the", "be", "to", "of", "and",
   "a", "in", "that", "have", "it",
   "for", "not", "on", "with", "as",
   "you", "do", "at", "this", "but",
   "his", "by", "from", "they", "we",
   "say", "her", "she", "or", "an",
   "will", "my", "one", "all", "would",
   "there", "their", "what", "so", "up",
   "out", "if", "about", "who", "get",
   "which", "go", "me", "when", "make",
   "can", "like", "time", "no", "just",
   "him", "know", "take", "people", "into",
   "year", "your", "good", "some", "could",
   "them", "see", "other", "than", "then",
   "now", "look", "only", "come", "its",
   "over", "think", "also", "back", "after",
   "use", "two", "how", "our", "work"
  ].map String.toList

/-- Models `isEnglishWord`: lookup of the lowercased word in the map. -/
def isEnglishWord (word : Str) : Bool :=
  englishWords.contains (toLower word)

/-- Models `isAllowedWord`: case-insensitive match against an allowed term,
or the anchored regular expressions for a number (`^\d+$`) or an
all-uppercase acronym (`^[A-Z]{2,}$`), written out as the character
predicates they denote. -/
def isAllowedWord (cfg : StrongValidation) (word : Str) : Bool :=
  cfg.allowedTerms.any (fun term => toLower word = toLower term)
  || (word ≠ [] ∧ word.all (fun c => '0' ≤ c ∧ c ≤ '9'))
  || (word.length ≥ 2 ∧ word.all (fun c => 'A' ≤ c ∧ c ≤ 'Z'))

/-- Models `extractProblematicFragments`: words of the cleaned text longer
than 3 characters that are not allowed and look like English words, then
capped at 5 fragments. -/
def extractProblematicFragments (cfg : StrongValidation)
    (originalText cleanedText : Str) : List Str :=
  let fragments := (fields cleanedText).foldl
    (fun fr word =>
      if word.length > 3 ∧ isAllowedWord cfg word = false ∧ isEnglishWord word = true
      then fr ++ [word] else fr) []
  if fragments.length > 5 then fragments.take 5 else fragments

/-- Models `Validator.Validate`: returns the validity flag and the flagged
fragments.  The check fires only for source language `en`, on cleaned
text of at least 10 characters. -/
def Validate (cfg : StrongValidation) (text sourceLang targetLang : Str) :
    Bool × List Str :=
  if cfg.enabled = false then (true, [])
  else
    let cleanedText := cleanTextForValidation cfg text
    if (trimSpace cleanedText).length < 10 then (true, [])
    else if sourceLang = ("en".toList) ∧ containsEnglishText cleanedText = true then
      (false, extractProblematicFragments cfg text cleanedText)
    else (true, [])

end Validator

/-! ## Translation orchestrator (internal/translator/translator.go) -/

namespace Translator

/-- The fields of config.Settings the orchestration core reads.  The
remaining yaml fields (temperature, max tokens, timeout, the analysis
flags) are passed through to providers or to the HTTP client and never
influence the control flow modelled here. -/
structure Settings where
  chunkSize : Nat
  retryCount : Nat
  retryDelay : Nat
deriving DecidableEq

/-- The fields of config.Config the orchestration core reads.  Provider
credentials and prompt templates only shape the outbound request payload. -/
structure Config where
  settings : Settings
  strongValidation : Validator.StrongValidation
deriving DecidableEq

/-- A glossary entry (config.GlossaryEntry), reduced to the fields the
translator layer could see; the glossary processing functions of the
source ignore their glossary argument entirely. -/
structure GlossaryEntry where
  term : Str
  translation : Str
deriving DecidableEq

/-- The fields of translator.TranslateRequest driving the control flow.
Style, context, temperature, max tokens and the format flag only shape
the request payload sent to the provider. -/
structure TranslateRequest where
  text : Str
  sourceLang : Str
  targetLang : Str
  glossary : List GlossaryEntry
  strongMode : Bool
  strongRetries : Nat
deriving DecidableEq

/-- One provider result (provider.TranslateResponse): translated text and
token usage. -/
structure ProviderResponse where
  text : Str
  tokensUsed : Nat
deriving DecidableEq

/-- The orchestrator result (translator.TranslateResponse). -/
structure TranslateResponse where
  text : Str
  detectedLang : Str
  tokensUsed : Nat
deriving DecidableEq

/-- Models `applyGlossaryPreProcessing`, which returns the text unchanged. -/
def applyGlossaryPreProcessing (text : Str) (glossary : List GlossaryEntry) : Str :=
  text

/-- Models `applyGlossaryPostProcessing`, which returns the text unchanged. -/
def applyGlossaryPostProcessing (text : Str) (glossary : List GlossaryEntry) : Str :=
  text

/-- Models `isRetryableError`: the error message contains one of the
transient-failure substrings. -/
def isRetryableError (e : Str) : Bool :=
  containsSubstr e ("rate limit".toList)
  || containsSubstr e ("429".toList)
  || containsSubstr e ("timeout".toList)
  || containsSubstr e ("connection".toList)
  || containsSubstr e ("503".toList)
  || containsSubstr e ("502".toList)
  || containsSubstr e ("500".toList)

/-- The retry budget actually used by `translateWithRetry`: a configured
count of 0 falls back to 3. -/
def effectiveRetryCount (s : Settings) : Nat :=
  if s.retryCount = 0 then 3 else s.retryCount

/-- The backoff delay in nanoseconds waited before retry `attempt`
(attempt at least 1), as computed by `translateWithRetry`:
`time.Duration(RetryDelay) * time.Second`, with 0 falling back to one
second, times `1 << (attempt-1)`.  `time.Duration` is a 64-bit integer,
so each product is reduced modulo 2 to the 64 (the theorems below add
range hypotheses under which no reduction occurs). -/
def retryDelayNanos (s : Settings) (attempt : Nat) : Nat :=
  let delay := (s.retryDelay * 1000000000) % (2 ^ 64)
  let delay2 := if delay = 0 then 1000000000 else delay
  (delay2 * ((1 <<< (attempt - 1)) % (2 ^ 64))) % (2 ^ 64)

/-- The exhaustion error of `translateWithRetry`:
`fmt.Errorf("failed after %d retries: %w", retryCount, lastErr)`. -/
def retriesExhaustedMsg (retryCount : Nat) (lastErr : Str) : Str :=
  ("failed after ".toList) ++ (Nat.repr retryCount).toList
    ++ (" retries: ".toList) ++ lastErr

/-- The attempt loop of `translateWithRetry`, with the for-loop rendered as
recursion on the number of iterations left (`remaining`; the loop runs
for attempts 0 through retryCount, so it starts at retryCount + 1).
The provider is modelled as a map from a running call counter `k` to the
outcome of that call, threading the counter so that retries observe
successive backend responses.  The context-cancellation select around
the wait is not modelled (no cancellation fires in any theorem below).
Returns the result, the advanced call counter, and the list of backoff
delays waited, in order. -/
def retryLoop (s : Settings) (backend : Nat → Except Str ProviderResponse)
    (retryCount : Nat) :
    Nat → Nat → Nat → Str → Except Str ProviderResponse × Nat × List Nat
  | 0, k, _attempt, lastErr =>
    (Except.error (retriesExhaustedMsg retryCount lastErr), k, [])
  | remaining + 1, k, attempt, _lastErr =>
    let ds : List Nat := if attempt = 0 then [] else [retryDelayNanos s attempt]
    match backend k with
    | Except.ok resp => (Except.ok resp, k + 1, ds)
    | Except.error e =>
      if isRetryableError e = true then
        match retryLoop s backend retryCount remaining (k + 1) (attempt + 1) e with
        | (r, k2, ds2) => (r, k2, ds ++ ds2)
      else (Except.error e, k + 1, ds)

/-- Models `Translator.translateWithRetry` from the call counter `k`. -/
def translateWithRetry (s : Settings) (backend : Nat → Except Str ProviderResponse)
    (k : Nat) : Except Str ProviderResponse × Nat × List Nat :=
  retryLoop s backend (effectiveRetryCount s) (effectiveRetryCount s + 1) k 0 []

/-- The failure message of `validateTranslation`:
`fmt.Errorf("found source language text: %v", strings.Join(fragments, ", "))`. -/
def foundSourceTextMsg (fragments : List Str) : Str :=
  ("found source language text: ".toList) ++ joinSep (", ".toList) fragments

/-- Models `Translator.validateTranslation`: outside strong mode the text
passes unchanged; in strong mode it is rejected exactly when the
validator flags it invalid and reports at least one fragment. -/
def validateTranslation (cfg : Config) (req : TranslateRequest)
    (original translated : Str) : Except Str Str :=
  if req.strongMode = false then Except.ok translated
  else
    let r := Validator.Validate cfg.strongValidation translated req.sourceLang req.targetLang
    if r.1 = false ∧ r.2 ≠ [] then Except.error (foundSourceTextMsg r.2)
    else Except.ok translated

/-- The strong-mode re-translation loop of `Translate` (`for retry := 1;
retry <= req.StrongRetries; retry++`), as recursion on the retries left.
A failed backend call consumes a slot (`continue`); a passing validation
updates the translated chunk and breaks.  The escalated-guidance context
of the retry request only changes the outbound payload, which the
backend model indexes by call counter.  Returns the (possibly updated)
translated chunk and the advanced call counter.  Note the loop does not
communicate success to its caller: in the source both statements that
set `err` inside the loop body target a fresh `err` introduced by `:=`
in that body, leaving the enclosing `err` binding untouched. -/
def strongRetryLoop (cfg : Config) (req : TranslateRequest)
    (backend : Nat → Except Str ProviderResponse) (chunk : Str) :
    Nat → Nat → Str → Str × Nat
  | 0, k, translatedChunk => (translatedChunk, k)
  | remaining + 1, k, translatedChunk =>
    match translateWithRetry cfg.settings backend k with
    | (Except.error _, k2, _) =>
      strongRetryLoop cfg req backend chunk remaining k2 translatedChunk
    | (Except.ok retryResp, k2, _) =>
      match validateTranslation cfg req chunk retryResp.text with
      | Except.ok validated => (validated, k2)
      | Except.error _ =>
        strongRetryLoop cfg req backend chunk remaining k2 translatedChunk

/-- Accumulator loop for `splitIntoSentences`; `current` holds the pending
sentence reversed (the source appends to a strings.Builder). -/
def splitIntoSentencesAux (current : Str) : Str → List Str
  | [] => if current = [] then [] else [trimSpace current.reverse]
  | c :: rest =>
    let current2 := c :: current
    if (c = '.' ∨ c = '!' ∨ c = '?') ∧ (match rest with | ' ' :: _ => true | _ => false) = true then
      trimSpace current2.reverse :: splitIntoSentencesAux [] rest
    else splitIntoSentencesAux current2 rest

/-- Models `splitIntoSentences`: cut after `.`, `!` or `?` when the next
byte is a space; every flushed piece is trimmed, and a trailing nonempty
remainder is flushed trimmed. -/
def splitIntoSentences (text : Str) : List Str := splitIntoSentencesAux [] text

/-- The word-level accumulate-and-flush step of `splitIntoChunks`.  The
state is (flushed chunks, current buffer).  Note this flush is not
guarded by a nonemptiness check on the buffer. -/
def wordStep (chunkSize : Nat) (st : List Str × Str) (word : Str) : List Str × Str :=
  if st.2.length + word.length + 1 > chunkSize then
    (st.1 ++ [trimSpace st.2], word)
  else
    (st.1, (if st.2 ≠ [] then st.2 ++ [' '] else st.2) ++ word)

/-- The sentence-level accumulate-and-flush step of `splitIntoChunks`,
falling back to word granularity for sentences over the budget. -/
def sentenceStep (chunkSize : Nat) (st : List Str × Str) (sentence : Str) :
    List Str × Str :=
  if st.2.length + sentence.length + 1 > chunkSize then
    let flushed : List Str × Str :=
      if st.2 ≠ [] then (st.1 ++ [trimSpace st.2], []) else (st.1, st.2)
    if sentence.length > chunkSize then
      (fields sentence).foldl (wordStep chunkSize) flushed
    else (flushed.1, sentence)
  else
    (st.1, (if st.2 ≠ [] then st.2 ++ [' '] else st.2) ++ sentence)

/-- The paragraph-level accumulate-and-flush step of `splitIntoChunks`,
falling back to sentence granularity for paragraphs over the budget. -/
def paragraphStep (chunkSize : Nat) (st : List Str × Str) (paragraph : Str) :
    List Str × Str :=
  if st.2.length + paragraph.length + 2 > chunkSize then
    let flushed : List Str × Str :=
      if st.2 ≠ [] then (st.1 ++ [trimSpace st.2], []) else (st.1, st.2)
    if paragraph.length > chunkSize then
      (splitIntoSentences paragraph).foldl (sentenceStep chunkSize) flushed
    else (flushed.1, paragraph)
  else
    (st.1, (if st.2 ≠ [] then st.2 ++ ['\n', '\n'] else st.2) ++ paragraph)

/-- Models `Translator.splitIntoChunks`: text within the budget is returned
as a single segment verbatim; otherwise paragraphs (split on blank
lines) are accumulated and flushed, falling back to sentences and then
words, and a nonempty final buffer is flushed trimmed. -/
def splitIntoChunks (text : Str) (chunkSize : Nat) : List Str :=
  if text.length ≤ chunkSize then [text]
  else
    let final := (splitBlank text).foldl (paragraphStep chunkSize) ([], [])
    if final.2 ≠ [] then final.1 ++ [trimSpace final.2] else final.1

/-- The per-chunk failure message of `Translate`:
`fmt.Errorf("failed to translate chunk %d: %w", i+1, err)`. -/
def chunkFailMsg (oneBasedIndex : Nat) (e : Str) : Str :=
  ("failed to translate chunk ".toList) ++ (Nat.repr oneBasedIndex).toList
    ++ (": ".toList) ++ e

/-- The strong-validation exhaustion message of `Translate`:
`fmt.Errorf("strong validation failed after %d retries", req.StrongRetries)`. -/
def strongValidationFailedMsg (strongRetries : Nat) : Str :=
  ("strong validation failed after ".toList) ++ (Nat.repr strongRetries).toList
    ++ (" retries".toList)

/-- The per-chunk loop of `Translate` over the segments, threading the
0-based index `i`, the call counter `k`, the accumulated results and the
token total.  In strong mode a failed initial validation enters the
re-translation loop; by the scoping noted at `strongRetryLoop` the check
after that loop reads the still-failed outer validation error, so this
branch always aborts with the exhaustion message, and the token total
only ever accumulates the initial attempt of each chunk
(`totalTokens += resp.TokensUsed`). -/
def translateChunks (cfg : Config) (req : TranslateRequest)
    (backend : Nat → Except Str ProviderResponse) :
    List Str → Nat → Nat → List Str → Nat → Except Str (List Str × Nat)
  | [], _i, _k, results, totalTokens => Except.ok (results, totalTokens)
  | chunk :: rest, i, k, results, totalTokens =>
    match translateWithRetry cfg.settings backend k with
    | (Except.error e, _, _) => Except.error (chunkFailMsg (i + 1) e)
    | (Except.ok resp, k2, _) =>
      if req.strongMode = true then
        match validateTranslation cfg req chunk resp.text with
        | Except.ok validated =>
          translateChunks cfg req backend rest (i + 1) k2
            (results ++ [validated]) (totalTokens + resp.tokensUsed)
        | Except.error _ =>
          let _loopResult :=
            strongRetryLoop cfg req backend chunk req.strongRetries k2 resp.text
          Except.error (strongValidationFailedMsg req.strongRetries)
      else
        translateChunks cfg req backend rest (i + 1) k2
          (results ++ [resp.text]) (totalTokens + resp.tokensUsed)

/-- Models `Translator.Translate` from the point where the HTTP client and
the provider have been resolved (both are external effects whose success
the scenarios assume; the provider is the `backend` map).  Glossary
pre/post processing, chunking, the per-chunk retry and strong-validation
handling, result joining with a blank line and token totalling follow
the source. -/
def Translate (cfg : Config) (req : TranslateRequest)
    (backend : Nat → Except Str ProviderResponse) : Except Str TranslateResponse :=
  let text := if req.glossary.length > 0
    then applyGlossaryPreProcessing req.text req.glossary else req.text
  let chunks := splitIntoChunks text cfg.settings.chunkSize
  match translateChunks cfg req backend chunks 0 0 [] 0 with
  | Except.error e => Except.error e
  | Except.ok (results, totalTokens) =>
    let finalText := joinSep ("\n\n".toList) results
    let finalText2 := if req.glossary.length > 0
      then applyGlossaryPostProcessing finalText req.glossary else finalText
    Except.ok { text := finalText2, detectedLang := [], tokensUsed := totalTokens }

end Translator

/-! ## Concrete scenario configurations

The strong-validation configurations below are enabled with no allowed
patterns and no allowed terms (a legal user configuration under which the
regex cleaning loop is a no-op), so the embedded validator computes the
exact source behaviour on them. -/

/-- Scenario for C1: strong validation enabled, no allowed terms. -/
def sv1 : Validator.StrongValidation := ⟨true, 3, []⟩

/-- Scenario for C1: chunk budget 3000, 3 provider retries, 1s base delay. -/
def cfg1 : Translator.Config := ⟨⟨3000, 3, 1⟩, sv1⟩

/-- Scenario for C1: strong mode on with a budget of 3 re-translations. -/
def req1 : Translator.TranslateRequest :=
  ⟨"Hello world".toList, "en".toList, "fr".toList, [], true, 3⟩

/-- Scenario for C1: an output that fails validation (English residue with
the flaggable word `would`). -/
def badOut1 : Str := "the cat would be on the mat and it is not here".toList

/-- Scenario for C1: an output that passes validation. -/
def goodOut1 : Str := "Bonjour le monde entier maintenant".toList

/-- Scenario for C1: the backend answers the initial call with the failing
output (5 tokens) and the first re-translation with the passing output
(7 tokens). -/
def backend1 : Nat → Except Str Translator.ProviderResponse := fun k =>
  if k = 0 then Except.ok ⟨badOut1, 5⟩
  else if k = 1 then Except.ok ⟨goodOut1, 7⟩
  else Except.error ("unreachable".toList)

/-- Scenario A for C2: strong validation disabled. -/
def svA : Validator.StrongValidation := ⟨false, 3, []⟩

/-- Scenario A for C2: chunk budget 8 so the request text splits in two. -/
def cfgA : Translator.Config := ⟨⟨8, 3, 1⟩, svA⟩

/-- Scenario A for C2: a two-paragraph text, strong mode off. -/
def reqA : Translator.TranslateRequest :=
  ⟨"abcd\n\nefgh".toList, "en".toList, "fr".toList, [], false, 0⟩

/-- Scenario A for C2: the two chunks cost 5 and 7 tokens. -/
def backendA : Nat → Except Str Translator.ProviderResponse := fun k =>
  if k = 0 then Except.ok ⟨"AB".toList, 5⟩
  else if k = 1 then Except.ok ⟨"CD".toList, 7⟩
  else Except.error ("unreachable".toList)

/-- Scenario B for C2: strong validation enabled, no allowed terms. -/
def sv2 : Validator.StrongValidation := ⟨true, 3, []⟩

/-- Scenario B for C2: chunk budget 3000 (single chunk). -/
def cfg2 : Translator.Config := ⟨⟨3000, 3, 1⟩, sv2⟩

/-- Scenario B for C2: strong mode on with a budget of 3 re-translations. -/
def req2 : Translator.TranslateRequest :=
  ⟨"Hello world".toList, "en".toList, "fr".toList, [], true, 3⟩

/-- Scenario B for C2: an output failing validation. -/
def badOut2 : Str := "the cat would be on the mat and it is not here".toList

/-- Scenario B for C2: an output passing validation. -/
def goodOut2 : Str := "Bonjour le monde entier maintenant".toList

/-- Scenario B for C2: the initial attempt costs 11 tokens and is rejected;
the accepted first re-translation costs 13 tokens. -/
def backend2 : Nat → Except Str Translator.ProviderResponse := fun k =>
  if k = 0 then Except.ok ⟨badOut2, 11⟩
  else if k = 1 then Except.ok ⟨goodOut2, 13⟩
  else Except.error ("unreachable".toList)

/-- Scenario for C9: strong validation enabled, no allowed terms. -/
def sv9 : Validator.StrongValidation := ⟨true, 3, []⟩

/-- Scenario for C9. -/
def cfg9 : Translator.Config := ⟨⟨3000, 3, 1⟩, sv9⟩

/-- Scenario for C9: strong mode on, source language `en`. -/
def req9 : Translator.TranslateRequest :=
  ⟨"chunk".toList, "en".toList, "de".toList, [], true, 3⟩

/-- Scenario for C9: a text the validator finds invalid (four common
English words appear) but cannot flag (every word has at most 3
characters, and the fragment extractor only flags words longer than 3). -/
def text9 : Str := "aaa the of and in bbb".toList

/-- Decidable equality for `Except` results (used to evaluate the concrete
scenarios). -/
instance exceptDecEq {ε α : Type} [DecidableEq ε] [DecidableEq α] :
    DecidableEq (Except ε α)
  | Except.ok x, Except.ok y =>
    if h : x = y then isTrue (h ▸ rfl) else isFalse (fun hc => h (Except.ok.inj hc))
  | Except.error x, Except.error y =>
    if h : x = y then isTrue (h ▸ rfl) else isFalse (fun hc => h (Except.error.inj hc))
  | Except.ok _, Except.error _ => isFalse (fun hc => Except.noConfusion hc)
  | Except.error _, Except.ok _ => isFalse (fun hc => Except.noConfusion hc)

/-! ## Helper lemmas -/

/-- An invariant preserved by every step of a left fold holds of its result. -/
theorem foldl_inv {α β : Type} (P : α → Prop) (f : α → β → α) :
    ∀ (l : List β) (init : α), P init →
      (∀ a b, b ∈ l → P a → P (f a b)) → P (l.foldl f init) := by
  intro l
  induction l with
  | nil => intro init h0 _; exact h0
  | cons b l ih =>
    intro init h0 hstep
    exact ih (f init b) (hstep init b (List.mem_cons_self b l) h0)
      (fun a x hx ha => hstep a x (List.mem_cons_of_mem b hx) ha)

/-- Trimming never lengthens a string. -/
theorem trimSpace_length_le (s : Str) : (trimSpace s).length ≤ s.length := by
  unfold trimSpace
  rw [List.length_reverse]
  exact le_trans (List.dropWhile_sublist isSpace).length_le
    (by simpa using (List.dropWhile_sublist (l := s) isSpace).length_le)

/-- An element on which the predicate fails survives `dropWhile`. -/
theorem mem_dropWhile_of_neg {p : Char → Bool} {l : Str} {c : Char}
    (hc : c ∈ l) (hcp : p c = false) : c ∈ l.dropWhile p := by
  have h2 : c ∈ l.takeWhile p ++ l.dropWhile p := by
    rw [List.takeWhile_append_dropWhile p l]; exact hc
  rcases List.mem_append.mp h2 with h | h
  · exact absurd (List.mem_takeWhile_imp h) (by simp [hcp])
  · exact h

/-- Non-whitespace characters survive trimming. -/
theorem mem_trimSpace {s : Str} {c : Char} (hc : c ∈ s) (hcs : isSpace c = false) :
    c ∈ trimSpace s := by
  unfold trimSpace
  rw [List.mem_reverse]
  exact mem_dropWhile_of_neg (List.mem_reverse.mpr (mem_dropWhile_of_neg hc hcs)) hcs

/-- A string containing a non-whitespace character does not trim to empty. -/
theorem trimSpace_ne_nil {s : Str} (h : ∃ c ∈ s, isSpace c = false) :
    trimSpace s ≠ [] := by
  rcases h with ⟨c, hc, hcs⟩
  exact List.ne_nil_of_mem (mem_trimSpace hc hcs)

/-- Executable list-prefix test, characterised. -/
theorem isPrefixOf_eq_true_iff :
    ∀ (l s : Str), l.isPrefixOf s = true ↔ ∃ t, s = l ++ t := by
  intro l
  induction l with
  | nil => intro s; simp [List.isPrefixOf]
  | cons a l ih =>
    intro s
    cases s with
    | nil => simp [List.isPrefixOf]
    | cons b s =>
      simp only [List.isPrefixOf, Bool.and_eq_true, beq_iff_eq, ih s]
      constructor
      · rintro ⟨rfl, t, rfl⟩; exact ⟨t, rfl⟩
      · rintro ⟨t, ht⟩
        injection ht with h1 h2
        exact ⟨h1.symm, t, h2⟩

/-- The executable substring test agrees with the substring proposition. -/
theorem containsSubstr_iff :
    ∀ (s sub : Str), containsSubstr s sub = true ↔ SubstringOf sub s := by
  intro s
  induction s with
  | nil =>
    intro sub
    simp only [containsSubstr, SubstringOf, isPrefixOf_eq_true_iff]
    constructor
    · rintro ⟨t, ht⟩
      exact ⟨[], t, ht⟩
    · rintro ⟨pre, post, h⟩
      rcases List.append_eq_nil.mp (List.append_eq_nil.mp h.symm).1 with ⟨h1, h2⟩
      exact ⟨post, by simp [h2, (List.append_eq_nil.mp h.symm).2]⟩
  | cons c rest ih =>
    intro sub
    simp only [containsSubstr, Bool.or_eq_true, isPrefixOf_eq_true_iff, ih, SubstringOf]
    constructor
    · rintro (⟨t, ht⟩ | ⟨pre, post, hp⟩)
      · exact ⟨[], t, by simp [ht]⟩
      · exact ⟨c :: pre, post, by simp [hp]⟩
    · rintro ⟨pre, post, hp⟩
      cases pre with
      | nil => exact Or.inl ⟨post, by simpa using hp⟩
      | cons p pre =>
        injection hp with h1 h2
        exact Or.inr ⟨pre, post, h2⟩

/-- Invariant preservation of the paragraph accumulation step when the
paragraph fits the budget: flushed segments stay within the budget and
the buffer stays within the budget. -/
theorem paragraphStep_length_le (budget : Nat) (st : List Str × Str) (p : Str)
    (h1 : ∀ x ∈ st.1, x.length ≤ budget) (h2 : st.2.length ≤ budget)
    (hp : p.length < budget) :
    (∀ x ∈ (Translator.paragraphStep budget st p).1, x.length ≤ budget) ∧
    (Translator.paragraphStep budget st p).2.length ≤ budget := by
  unfold Translator.paragraphStep
  by_cases hflush : st.2.length + p.length + 2 > budget
  · rw [if_pos hflush]
    have hnp : ¬ (p.length > budget) := by omega
    rw [if_neg hnp]
    by_cases hcur : st.2 = []
    · simp only [hcur, ne_eq, not_true_eq_false, if_false]
      exact ⟨h1, le_of_lt hp⟩
    · simp only [ne_eq, hcur, not_false_eq_true, if_true]
      refine ⟨?_, le_of_lt hp⟩
      intro x hx
      rcases List.mem_append.mp hx with hx | hx
      · exact h1 x hx
      · rw [List.mem_singleton.mp hx]
        exact le_trans (trimSpace_length_le st.2) h2
  · rw [if_neg hflush]
    refine ⟨h1, ?_⟩
    by_cases hcur : st.2 = []
    · simp [hcur]
      omega
    · simp [hcur, List.length_append]
      omega

/-- Invariant preservation of the paragraph accumulation step when the
paragraph fits the budget and contains a non-whitespace character: all
flushed segments are nonempty after trimming and the buffer is empty or
contains a non-whitespace character. -/
theorem paragraphStep_nonempty (budget : Nat) (st : List Str × Str) (p : Str)
    (h1 : ∀ x ∈ st.1, trimSpace x ≠ [])
    (h2 : st.2 = [] ∨ ∃ c ∈ st.2, isSpace c = false)
    (hplen : p.length ≤ budget)
    (hpex : ∃ c ∈ p, isSpace c = false) :
    (∀ x ∈ (Translator.paragraphStep budget st p).1, trimSpace x ≠ []) ∧
    ((Translator.paragraphStep budget st p).2 = [] ∨
      ∃ c ∈ (Translator.paragraphStep budget st p).2, isSpace c = false) := by
  unfold Translator.paragraphStep
  by_cases hflush : st.2.length + p.length + 2 > budget
  · rw [if_pos hflush]
    have hnp : ¬ (p.length > budget) := by omega
    rw [if_neg hnp]
    by_cases hcur : st.2 = []
    · simp only [hcur, ne_eq, not_true_eq_false, if_false]
      exact ⟨h1, Or.inr hpex⟩
    · simp only [ne_eq, hcur, not_false_eq_true, if_true]
      refine ⟨?_, Or.inr hpex⟩
      intro x hx
      rcases List.mem_append.mp hx with hx | hx
      · exact h1 x hx
      · rw [List.mem_singleton.mp hx]
        rcases h2.resolve_left hcur with ⟨c, hc, hcs⟩
        exact trimSpace_ne_nil ⟨c, mem_trimSpace hc hcs, hcs⟩
  · rw [if_neg hflush]
    refine ⟨h1, Or.inr ?_⟩
    rcases hpex with ⟨c, hc, hcs⟩
    exact ⟨c, List.mem_append.mpr (Or.inr hc), hcs⟩

/-! ## Claim theorems: segmenter -/

/-- Claim C4, counterexample: for the in-budget input `"  hi  "` the
segmenter returns the input verbatim, which differs from the trimmed
input the claim promises. -/
theorem c4_short_input_not_trimmed_counterexample :
    Translator.splitIntoChunks ("  hi  ".toList) 3000 = [("  hi  ".toList)]
    ∧ trimSpace ("  hi  ".toList) = ("hi".toList)
    ∧ ("  hi  ".toList) ≠ ("hi".toList) :=
  ⟨by decide, by decide, by decide⟩

/-- Claim C4 as amended: an input no longer than the budget yields exactly
one segment equal to the input text verbatim (no trimming happens on
this path). -/
theorem c4_short_input_single_segment (text : Str) (budget : Nat)
    (h : text.length ≤ budget) :
    Translator.splitIntoChunks text budget = [text] := by
  unfold Translator.splitIntoChunks
  rw [if_pos h]

/-- Witness for `c4_short_input_single_segment` at the input `"  hi  "`. -/
theorem c4_short_input_single_segment_witness :
    ("  hi  ".toList).length ≤ 3000 ∧
    Translator.splitIntoChunks ("  hi  ".toList) 3000 = [("  hi  ".toList)] :=
  ⟨by decide, c4_short_input_single_segment ("  hi  ".toList) 3000 (by decide)⟩

/-- Claim C5, counterexample: with positive budget 5, the input
`" \n\nabcdefgh"` produces two empty segments — the flushed
whitespace-only paragraph buffer trims to empty, and the word-level
flush emits an empty buffer when an over-budget word arrives. -/
theorem c5_empty_segment_counterexample :
    0 < 5
    ∧ Translator.splitIntoChunks (" \n\nabcdefgh".toList) 5
        = [[], [], ("abcdefgh".toList)]
    ∧ ([] : Str) ∈ Translator.splitIntoChunks (" \n\nabcdefgh".toList) 5
    ∧ trimSpace ([] : Str) = [] :=
  ⟨by decide, by decide, by decide, by decide⟩

/-- Claim C5 as amended: every returned segment is nonempty after trimming
provided the input contains a non-whitespace character and every
paragraph both fits the budget and contains a non-whitespace character
(so that neither the sentence/word fallback nor a whitespace-only
buffer flush is reached); in general the invariant fails, as the
counterexample shows. -/
theorem c5_nonempty_segments (text : Str) (budget : Nat)
    (hb : 0 < budget)
    (htext : ∃ c ∈ text, isSpace c = false)
    (hpar : ∀ p ∈ splitBlank text, p.length ≤ budget ∧ ∃ c ∈ p, isSpace c = false) :
    ∀ seg ∈ Translator.splitIntoChunks text budget, trimSpace seg ≠ [] := by
  intro seg hseg
  unfold Translator.splitIntoChunks at hseg
  by_cases hlen : text.length ≤ budget
  · rw [if_pos hlen] at hseg
    rw [List.mem_singleton.mp hseg]
    exact trimSpace_ne_nil htext
  · rw [if_neg hlen] at hseg
    have hinv := foldl_inv
      (fun st : List Str × Str =>
        (∀ x ∈ st.1, trimSpace x ≠ []) ∧
        (st.2 = [] ∨ ∃ c ∈ st.2, isSpace c = false))
      (Translator.paragraphStep budget) (splitBlank text) ([], [])
      (by exact ⟨by simp, Or.inl rfl⟩)
      (fun a p hp ha =>
        paragraphStep_nonempty budget a p ha.1 ha.2 (hpar p hp).1 (hpar p hp).2)
    set final := (splitBlank text).foldl (Translator.paragraphStep budget) ([], [])
    by_cases hcur : final.2 = []
    · simp only [hcur, ne_eq, not_true_eq_false, if_false] at hseg
      exact hinv.1 seg hseg
    · simp only [ne_eq, hcur, not_false_eq_true, if_true] at hseg
      rcases List.mem_append.mp hseg with hx | hx
      · exact hinv.1 seg hx
      · rw [List.mem_singleton.mp hx]
        rcases hinv.2.resolve_left hcur with ⟨c, hc, hcs⟩
        exact trimSpace_ne_nil ⟨c, mem_trimSpace hc hcs, hcs⟩

/-- Witness for `c5_nonempty_segments` at the input `" x \n\ny "`. -/
theorem c5_nonempty_segments_witness :
    Translator.splitIntoChunks (" x \n\ny ".toList) 5 = [("x".toList), ("y".toList)]
    ∧ trimSpace ("x".toList) ≠ [] ∧ trimSpace ("y".toList) ≠ [] :=
  ⟨by decide,
   c5_nonempty_segments (" x \n\ny ".toList) 5 (by decide) (by decide) (by decide)
     ("x".toList) (by decide),
   c5_nonempty_segments (" x \n\ny ".toList) 5 (by decide) (by decide) (by decide)
     ("y".toList) (by decide)⟩

/-- Claim C6: when every paragraph, every sentence of every paragraph, and
every whitespace-delimited word of the input is shorter than the budget,
every returned segment fits the budget.  (The paragraph condition alone
already keeps the fold at paragraph granularity.) -/
theorem c6_segments_within_budget (text : Str) (budget : Nat)
    (hpar : ∀ p ∈ splitBlank text, p.length < budget)
    (hsen : ∀ p ∈ splitBlank text, ∀ s ∈ Translator.splitIntoSentences p,
      s.length < budget)
    (hword : ∀ w ∈ fields text, w.length < budget) :
    ∀ seg ∈ Translator.splitIntoChunks text budget, seg.length ≤ budget := by
  intro seg hseg
  unfold Translator.splitIntoChunks at hseg
  by_cases hlen : text.length ≤ budget
  · rw [if_pos hlen] at hseg
    rw [List.mem_singleton.mp hseg]
    exact hlen
  · rw [if_neg hlen] at hseg
    have hinv := foldl_inv
      (fun st : List Str × Str =>
        (∀ x ∈ st.1, x.length ≤ budget) ∧ st.2.length ≤ budget)
      (Translator.paragraphStep budget) (splitBlank text) ([], [])
      (by exact ⟨by simp, by simp⟩)
      (fun a p hp ha =>
        paragraphStep_length_le budget a p ha.1 ha.2 (hpar p hp))
    set final := (splitBlank text).foldl (Translator.paragraphStep budget) ([], [])
    by_cases hcur : final.2 = []
    · simp only [hcur, ne_eq, not_true_eq_false, if_false] at hseg
      exact hinv.1 seg hseg
    · simp only [ne_eq, hcur, not_false_eq_true, if_true] at hseg
      rcases List.mem_append.mp hseg with hx | hx
      · exact hinv.1 seg hx
      · rw [List.mem_singleton.mp hx]
        exact le_trans (trimSpace_length_le final.2) hinv.2

/-- Witness for `c6_segments_within_budget` at the input `"ab\n\ncd"`. -/
theorem c6_segments_within_budget_witness :
    Translator.splitIntoChunks ("ab\n\ncd".toList) 3 = [("ab".toList), ("cd".toList)]
    ∧ ("ab".toList).length ≤ 3 :=
  ⟨by decide,
   c6_segments_within_budget ("ab\n\ncd".toList) 3 (by decide) (by decide) (by decide)
     ("ab".toList) (by decide)⟩

/-! ## Claim theorems: proxy bypass -/

/-- The per-pattern decision of the source agrees with the amended
per-pattern rule. -/
theorem patternBypasses_eq_spec (host pattern0 : Str) :
    patternBypasses host pattern0 = specBypassPattern host pattern0 := by
  unfold patternBypasses specBypassPattern matchPattern
  set p := toLower (trimSpace pattern0) with hp
  by_cases h1 : p = []
  · simp [h1]
  · by_cases h2 : p = ['*']
    · simp [h1, h2]
    · by_cases hA : (['*', '.'] : Str).isPrefixOf p = true
      · by_cases hx : (p.drop 2).isSuffixOf host = true
        · simp [h1, h2, hA, hx]
        · simp [h1, h2, hA, hx]
      · simp [h1, h2, hA]

/-- Pointwise-equal predicates give equal `any` results. -/
theorem any_congr_eq {α : Type} (l : List α) (f g : α → Bool)
    (h : ∀ x, f x = g x) : l.any f = l.any g := by
  induction l with
  | nil => rfl
  | cons x xs ih => simp [List.any_cons, h x, ih]

/-- Claim C3, counterexample: host `x.*` with the single pattern `x*`.  The
source rewrites the pattern to `x.*` and literal-matches it as a prefix
of the host, so it bypasses; under the rule as the claim words it
(literal pattern text `x*`) the host neither starts nor ends with the
pattern, so it would not bypass. -/
theorem c3_claim_rule_counterexample :
    shouldBypassProxy ("x.*".toList) [("x*".toList)] = true
    ∧ claimBypass ("x.*".toList) [("x*".toList)] = false :=
  ⟨by decide, by decide⟩

/-- Claim C3 as amended: the bypass decision lowercases the host, trims and
lowercases each pattern, skips empty patterns, and per pattern: `*`
bypasses every host; `*.suffix` bypasses hosts ending in the suffix; any
other pattern containing `*` is rewritten (`.` to `\.`, `*` to `.*`) and
bypasses hosts starting or ending with that rewritten literal text; any
other pattern bypasses exactly the host equal to it.  The three concrete
examples of the claim hold. -/
theorem c3_bypass_matching :
    (∀ (host : Str) (list : List Str),
      shouldBypassProxy host list = specBypass host list)
    ∧ shouldBypassProxy ("localhost".toList) [("localhost".toList)] = true
    ∧ shouldBypassProxy ("api.example.com".toList) [("*.example.com".toList)] = true
    ∧ shouldBypassProxy ("api.example.com".toList) [("other.com".toList)] = false := by
  refine ⟨?_, by decide, by decide, by decide⟩
  intro host list
  unfold shouldBypassProxy specBypass
  by_cases h : list.length = 0
  · rw [if_pos h]
    cases list with
    | nil => rfl
    | cons x xs => simp at h
  · rw [if_neg h]
    exact any_congr_eq list _ _ (patternBypasses_eq_spec (toLower host))

/-! ## Claim theorems: resilient executor -/

/-- The backoff delay computed before a retry attempt, in closed form,
under range hypotheses ruling out 64-bit wrap-around. -/
theorem retryDelayNanos_eq (s : Translator.Settings) (k : Nat) (hk : 1 ≤ k)
    (hrange : (if s.retryDelay = 0 then 1 else s.retryDelay) * 2 ^ (k - 1) * 1000000000
      < 2 ^ 64) :
    Translator.retryDelayNanos s k
      = (if s.retryDelay = 0 then 1 else s.retryDelay) * 1000000000 * 2 ^ (k - 1) := by
  have hPpos : 0 < 2 ^ (k - 1) := Nat.pos_pow_of_pos (k - 1) (by norm_num)
  simp only [Translator.retryDelayNanos, Nat.shiftLeft_eq, one_mul]
  by_cases h0 : s.retryDelay = 0
  · rw [if_pos h0] at hrange
    rw [h0]
    norm_num
    have hprod : 1000000000 * 2 ^ (k - 1) < 2 ^ 64 := by
      calc 1000000000 * 2 ^ (k - 1) = 1 * 2 ^ (k - 1) * 1000000000 := by ring
        _ < 2 ^ 64 := hrange
    simpa using hprod
  · rw [if_neg h0] at hrange
    rw [if_neg h0]
    have hrd : 1 ≤ s.retryDelay := Nat.one_le_iff_ne_zero.mpr h0
    have h1 : s.retryDelay * 1000000000 < 2 ^ 64 := by
      calc s.retryDelay * 1000000000
          ≤ s.retryDelay * 2 ^ (k - 1) * 1000000000 := by
            have := Nat.mul_le_mul_left s.retryDelay hPpos
            calc s.retryDelay * 1000000000 = s.retryDelay * 1 * 1000000000 := by ring
              _ ≤ s.retryDelay * 2 ^ (k - 1) * 1000000000 :=
                  Nat.mul_le_mul_right 1000000000 (by simpa using this)
        _ < 2 ^ 64 := hrange
    have h2 : 2 ^ (k - 1) < 2 ^ 64 := by
      calc 2 ^ (k - 1) = 1 * 2 ^ (k - 1) * 1 := by ring
        _ ≤ s.retryDelay * 2 ^ (k - 1) * 1000000000 :=
            Nat.mul_le_mul (Nat.mul_le_mul_right _ hrd) (by norm_num)
        _ < 2 ^ 64 := hrange
    have h3 : s.retryDelay * 1000000000 * 2 ^ (k - 1) < 2 ^ 64 := by
      calc s.retryDelay * 1000000000 * 2 ^ (k - 1)
          = s.retryDelay * 2 ^ (k - 1) * 1000000000 := by ring
        _ < 2 ^ 64 := hrange
    have h4 : s.retryDelay * 1000000000 ≠ 0 := Nat.mul_ne_zero h0 (by norm_num)
    rw [Nat.mod_eq_of_lt h1, Nat.mod_eq_of_lt h2, if_neg h4]
    exact Nat.mod_eq_of_lt h3

/-- Claim C7: the delay before retry attempt k is the (effective) base
delay times 2 to the (k-1), exactly; and for a configured base delay of
1 second and 4 retries the loop records the delays 1, 2, 4, 8 seconds. -/
theorem c7_backoff_growth :
    (∀ (s : Translator.Settings) (k : Nat), 1 ≤ k →
      (if s.retryDelay = 0 then 1 else s.retryDelay) * 2 ^ (k - 1) * 1000000000 < 2 ^ 64 →
      Translator.retryDelayNanos s k
        = (if s.retryDelay = 0 then 1 else s.retryDelay) * 1000000000 * 2 ^ (k - 1))
    ∧ (Translator.translateWithRetry ⟨3000, 4, 1⟩
        (fun _ => Except.error ("timeout".toList)) 0).2.2
      = [1000000000, 2000000000, 4000000000, 8000000000] :=
  ⟨retryDelayNanos_eq, by decide⟩

/-- Witness for `c7_backoff_growth` at base delay 2 and retry attempt 3. -/
theorem c7_backoff_growth_witness :
    Translator.retryDelayNanos ⟨3000, 4, 2⟩ 3 = 8000000000 := by
  have h := c7_backoff_growth.1 ⟨3000, 4, 2⟩ 3 (by norm_num) (by norm_num)
  simpa using h

/-- Claim C8: the retry classifier accepts exactly the errors whose message
contains one of the seven transient substrings; a fatal error on the
first attempt is returned immediately, unchanged, with exactly one
backend call made and no delay waited. -/
theorem c8_retry_classification :
    (∀ e : Str, Translator.isRetryableError e = true ↔
      (SubstringOf ("rate limit".toList) e ∨ SubstringOf ("429".toList) e
       ∨ SubstringOf ("timeout".toList) e ∨ SubstringOf ("connection".toList) e
       ∨ SubstringOf ("503".toList) e ∨ SubstringOf ("502".toList) e
       ∨ SubstringOf ("500".toList) e))
    ∧ Translator.isRetryableError ("invalid api key".toList) = false
    ∧ (∀ (s : Translator.Settings)
        (backend : Nat → Except Str Translator.ProviderResponse) (kc : Nat) (e : Str),
        backend kc = Except.error e → Translator.isRetryableError e = false →
        Translator.translateWithRetry s backend kc = (Except.error e, kc + 1, [])) := by
  refine ⟨?_, by decide, ?_⟩
  · intro e
    simp only [Translator.isRetryableError, Bool.or_eq_true, containsSubstr_iff]
    tauto
  · intro s backend kc e hb hf
    unfold Translator.translateWithRetry
    simp [Translator.retryLoop, hb, hf]

/-- Witness for `c8_retry_classification`: a backend failing with
`invalid api key` is surfaced unchanged after one call. -/
theorem c8_retry_classification_witness :
    Translator.translateWithRetry ⟨3000, 3, 1⟩
      (fun _ => Except.error ("invalid api key".toList)) 0
      = (Except.error ("invalid api key".toList), 1, []) :=
  c8_retry_classification.2.2 ⟨3000, 3, 1⟩
    (fun _ => Except.error ("invalid api key".toList)) 0
    ("invalid api key".toList) rfl (by decide)

/-- Claim C10: a configured retry count of 0 yields an effective budget of
3, and a configured base delay of 0 yields an effective base delay of
one second; with both at 0 an always-failing retryable backend is called
4 times with delays 1, 2, 4 seconds and the exhaustion error names the
budget 3. -/
theorem c10_retry_defaults :
    (∀ s : Translator.Settings, s.retryCount = 0 → Translator.effectiveRetryCount s = 3)
    ∧ (∀ (s : Translator.Settings) (k : Nat), s.retryDelay = 0 → 1 ≤ k → k ≤ 34 →
        Translator.retryDelayNanos s k = 1000000000 * 2 ^ (k - 1))
    ∧ Translator.translateWithRetry ⟨3000, 0, 0⟩
        (fun _ => Except.error ("connection".toList)) 0
      = (Except.error (Translator.retriesExhaustedMsg 3 ("connection".toList)), 4,
         [1000000000, 2000000000, 4000000000]) := by
  refine ⟨?_, ?_, by decide⟩
  · intro s h
    simp [Translator.effectiveRetryCount, h]
  · intro s k h0 hk hk34
    have hb : (if s.retryDelay = 0 then 1 else s.retryDelay) * 2 ^ (k - 1) * 1000000000
        < 2 ^ 64 := by
      rw [if_pos h0, one_mul]
      calc 2 ^ (k - 1) * 1000000000 ≤ 2 ^ 33 * 1000000000 :=
            Nat.mul_le_mul_right _ (Nat.pow_le_pow_right (by norm_num) (by omega))
        _ < 2 ^ 64 := by norm_num
    have h := retryDelayNanos_eq s k hk hb
    rw [if_pos h0, one_mul] at h
    exact h

/-- Witness for `c10_retry_defaults` at retry count 0 and base delay 0. -/
theorem c10_retry_defaults_witness :
    Translator.effectiveRetryCount ⟨3000, 0, 5⟩ = 3
    ∧ Translator.retryDelayNanos ⟨3000, 5, 0⟩ 2 = 2000000000 := by
  refine ⟨c10_retry_defaults.1 ⟨3000, 0, 5⟩ rfl, ?_⟩
  have h := c10_retry_defaults.2.1 ⟨3000, 5, 0⟩ 2 rfl (by norm_num) (by norm_num)
  simpa using h

/-! ## Claim theorems: strong-mode validation and orchestration -/

/-- Claim C9: in strong mode a translated output is rejected exactly when
the validator reports it invalid and returns at least one flagged
fragment; on the concrete text `aaa the of and in bbb` the validator
reports invalid with an empty fragment list (every detected word has at
most 3 characters), and `validateTranslation` accepts the output. -/
theorem c9_empty_fragments_accepted :
    (∀ (cfg : Translator.Config) (req : Translator.TranslateRequest)
        (chunk translated : Str), req.strongMode = true →
      ((∃ e, Translator.validateTranslation cfg req chunk translated = Except.error e)
        ↔ ((Validator.Validate cfg.strongValidation translated
              req.sourceLang req.targetLang).1 = false
           ∧ (Validator.Validate cfg.strongValidation translated
              req.sourceLang req.targetLang).2 ≠ [])))
    ∧ Validator.Validate sv9 text9 ("en".toList) ("de".toList) = (false, [])
    ∧ Translator.validateTranslation cfg9 req9 ("chunk".toList) text9
        = Except.ok text9 := by
  refine ⟨?_, by decide, by decide⟩
  intro cfg req chunk translated hm
  simp only [Translator.validateTranslation, hm, Bool.true_eq_false, if_false]
  constructor
  · rintro ⟨e, he⟩
    by_contra hcon
    rw [if_neg hcon] at he
    exact Except.noConfusion he
  · intro hcond
    rw [if_pos hcond]
    exact ⟨_, rfl⟩

/-- Witness for `c9_empty_fragments_accepted` at the C9 scenario. -/
theorem c9_empty_fragments_accepted_witness :
    (∃ e, Translator.validateTranslation cfg9 req9 ("chunk".toList) text9
        = Except.error e)
    ↔ ((Validator.Validate cfg9.strongValidation text9
          req9.sourceLang req9.targetLang).1 = false
       ∧ (Validator.Validate cfg9.strongValidation text9
          req9.sourceLang req9.targetLang).2 ≠ []) :=
  c9_empty_fragments_accepted.1 cfg9 req9 ("chunk".toList) text9 rfl

/-- Claim C1, evaluated at the failing input: in strong mode the initial
output is rejected, the very first re-translation (within the budget of
3) passes validation, yet `Translate` still fails with the
strong-validation exhaustion error, because the re-translation loop
assigns a shadowed `err` and the check after the loop reads the outer
one. -/
theorem c1_strong_retry_validated_output_still_rejected :
    backend1 1 = Except.ok ⟨goodOut1, 7⟩
    ∧ Translator.validateTranslation cfg1 req1 ("Hello world".toList) goodOut1
        = Except.ok goodOut1
    ∧ Translator.validateTranslation cfg1 req1 ("Hello world".toList) badOut1
        = Except.error (Translator.foundSourceTextMsg [("would".toList)])
    ∧ Translator.Translate cfg1 req1 backend1
        = Except.error (Translator.strongValidationFailedMsg 3) :=
  ⟨by decide, by decide, by decide, by decide⟩

/-- Claim C2, evaluated on both sides: a completed call without
re-translation sums exactly the accepted attempts (5 + 7 = 12 tokens
over two chunks); and in the strong-mode scenario where the accepted
output would be the 13-token re-translation, the call never completes at
all — it fails with the exhaustion error — so the accepted retry usage
is never returned and the accumulator only ever added the 11-token
initial attempt. -/
theorem c2_tokens_accounting_behavior :
    Translator.Translate cfgA reqA backendA
      = Except.ok ⟨("AB\n\nCD".toList), [], 12⟩
    ∧ backend2 1 = Except.ok ⟨goodOut2, 13⟩
    ∧ Translator.validateTranslation cfg2 req2 ("Hello world".toList) goodOut2
        = Except.ok goodOut2
    ∧ Translator.Translate cfg2 req2 backend2
        = Except.error (Translator.strongValidationFailedMsg 3) :=
  ⟨by decide, by decide, by decide, by decide⟩
